import Mathlib

/-!
A TTL cache (`cache.go`): shallow embedding and verified properties.

The Go program keeps a `map[string]CacheItem[T]` together with a default
time-to-live.  The embedding below is sequential: every method is a pure
function from the cache state (and the clock readings the method takes) to
the new state (and the returned values).

* `time.Time` is an instant on one time line, counted in nanoseconds, and
  `time.Duration` a signed number of nanoseconds.  `Time.Add` is addition and
  `Time.After` the strict order, as in the Go standard library.  Both types
  are unbounded integers here: a `Duration` spans at most 2^63 nanoseconds and
  `Add` keeps the seconds of the wall clock in 64 bits, so no sum of a clock
  reading and a duration wraps around in the program.
* The Go map is a `Finmap`: a finite, unordered map with unique keys.
* Each call of `time.Now()` in the source is one explicit argument of the
  embedded method, in the order the source takes them.  `Get` reads the clock
  up to twice (expiry check, renewal), `Invalidate` once per visited entry.
* The value returned by `*new(T)` is `default`.
* The mutex `m` is not a field of the embedded cache: the methods above
  describe one call running alone.  The goroutine started by `NewCache` only
  ever calls `Invalidate`, so it is one more caller of that method.  Which
  lock each method takes is recorded apart, in `Method.lockMode`.
-/

namespace GoCache

/-- An instant (`time.Time`), in nanoseconds. -/
abbrev Time := Int

/-- A signed span of time (`time.Duration`), in nanoseconds. -/
abbrev Duration := Int

/-- Go: `t.Add(d)`. -/
def Time.Add (t : Time) (d : Duration) : Time := t + d

/-- Go: `t.After(u)`, true when `t` is strictly later than `u`. -/
def Time.After (t u : Time) : Bool := decide (u < t)

/-- One millisecond, `time.Millisecond`. -/
def Millisecond : Duration := 1000000

/-- One second, `time.Second`. -/
def Second : Duration := 1000 * Millisecond

/-- Go: `type CacheItem[T any] struct { Value T; ExpireAt time.Time }`. -/
structure CacheItem (T : Type) where
  Value : T
  ExpireAt : Time
  deriving DecidableEq, Repr

/-- The Go type `map[string]CacheItem[T]`. -/
abbrev Items (T : Type) := Finmap (fun _ : String => CacheItem T)

/-- Go: `type Cache[T any] struct { items; ttl; m }` without the mutex. -/
structure Cache (T : Type) where
  items : Items T
  ttl : Duration

/-- Go: `make([]T, n)`, a slice of `n` zero values. -/
def make {T : Type} [Inhabited T] (n : Nat) : List T := List.replicate n default

/-- Go: the builtin `copy(dst, src)`; the result is `dst` after the call. It
overwrites the first `min (len dst) (len src)` elements of `dst`. -/
def copy {T : Type} (dst src : List T) : List T :=
  src.take dst.length ++ dst.drop src.length

/-- Go: `NewCache(ttl)`: an empty map and the given default TTL. -/
def NewCache {T : Type} (ttl : Duration) : Cache T :=
  ⟨∅, ttl⟩

/-- Go: `SetWithLifeDuration(key, value, lifeDuration)`; `now` is the reading
of `time.Now()`. -/
def SetWithLifeDuration {T : Type} [Inhabited T] (c : Cache T) (key : String) (value : T)
    (lifeDuration : Duration) (now : Time) : Cache T :=
  let item : List T := copy (make 1) [value]
  ⟨c.items.insert key ⟨item.headD default, Time.Add now lifeDuration⟩, c.ttl⟩

/-- Go: `Set(key, value)`. -/
def Set {T : Type} [Inhabited T] (c : Cache T) (key : String) (value : T) (now : Time) :
    Cache T :=
  SetWithLifeDuration c key value c.ttl now

/-- Go: `Get(key)`. `nowCheck` is the reading of `time.Now()` in the expiry
test, `nowRenew` the reading in the renewal. The result is the returned pair
and the cache after the call. -/
def Get {T : Type} [Inhabited T] (c : Cache T) (key : String) (nowCheck nowRenew : Time) :
    (T × Bool) × Cache T :=
  match c.items.lookup key with
  | none => ((default, false), c)
  | some item =>
    if Time.After nowCheck item.ExpireAt then
      ((default, false), ⟨c.items.erase key, c.ttl⟩)
    else
      ((item.Value, true),
        ⟨c.items.insert key ⟨item.Value, Time.Add nowRenew c.ttl⟩, c.ttl⟩)

/-- The body of the loop of `Invalidate` for the entry `(k, v)`; `now` is the
reading of `time.Now()` taken in this iteration. -/
def invalidateStep {T : Type} (now : Time) (items : Items T) (k : String)
    (v : CacheItem T) : Items T :=
  if Time.After now v.ExpireAt then items.erase k else items

/-- Go: `Invalidate()`. The loop `for k, v := range c.items` visits every
entry once, in an unspecified order; `nowAt k` is the reading of `time.Now()`
in the iteration that visits key `k`. The fold needs the iterations to
commute, which is why the order of the visit does not matter. -/
def Invalidate {T : Type} (c : Cache T) (nowAt : String → Time) : Cache T :=
  ⟨Finmap.foldl (fun items k v => invalidateStep (nowAt k) items k v)
    (fun d k₁ v₁ k₂ v₂ => by
      dsimp only [invalidateStep]
      split_ifs <;> first | rfl | exact Finmap.erase_erase)
    c.items c.items, c.ttl⟩

/-- Go: `Delete(key)`. -/
def Delete {T : Type} (c : Cache T) (key : String) : Cache T :=
  ⟨c.items.erase key, c.ttl⟩

/-- Spec, not source: `SetWithTTL(key, value, duration)` in the words of the
specification, "inserts or overwrites the entry for `key` with
`expireAt = now + duration`". It is compared with `Set` and
`SetWithLifeDuration` below. -/
def specSetWithTTL {T : Type} (c : Cache T) (key : String) (value : T) (duration : Duration)
    (now : Time) : Cache T :=
  ⟨c.items.insert key ⟨value, now + duration⟩, c.ttl⟩

/-! ## Sequences of calls -/

/-- One call of a method of the cache, with its arguments and the clock
readings that the call takes. -/
inductive Op (T : Type) where
  | set (key : String) (value : T) (now : Time)
  | setWithLifeDuration (key : String) (value : T) (lifeDuration : Duration) (now : Time)
  | get (key : String) (nowCheck nowRenew : Time)
  | invalidate (nowAt : String → Time)
  | delete (key : String)

/-- The cache after one call. -/
def Op.apply {T : Type} [Inhabited T] (c : Cache T) : Op T → Cache T
  | .set key value now => Set c key value now
  | .setWithLifeDuration key value lifeDuration now =>
    SetWithLifeDuration c key value lifeDuration now
  | .get key nowCheck nowRenew => (Get c key nowCheck nowRenew).2
  | .invalidate nowAt => Invalidate c nowAt
  | .delete key => Delete c key

/-- The cache after a sequence of calls, the first call first. -/
def run {T : Type} [Inhabited T] (ops : List (Op T)) (c : Cache T) : Cache T :=
  ops.foldl Op.apply c

/-- Whether the call assigns an entry to `key` from its arguments: `Set` and
`SetWithLifeDuration` on that key. -/
def Op.setsKey {T : Type} (key : String) : Op T → Bool
  | .set k _ _ => decide (k = key)
  | .setWithLifeDuration k _ _ _ => decide (k = key)
  | _ => false

/-- Whether the lifetime that the call passes is strictly positive; only
`SetWithLifeDuration` passes one. -/
def Op.positiveDuration {T : Type} : Op T → Bool
  | .setWithLifeDuration _ _ lifeDuration _ => decide (0 < lifeDuration)
  | _ => true

/-- Bookkeeping that the program does not hold: for every key, the clock
reading at which its entry was last written (`Set`, `SetWithLifeDuration`) or
renewed (a `Get` that found it, at the reading of the renewal). This is the
table after one call on the cache `c`. -/
def Op.stamp {T : Type} [Inhabited T] (c : Cache T) (stamps : String → Time) :
    Op T → String → Time
  | .set key _ now => Function.update stamps key now
  | .setWithLifeDuration key _ _ now => Function.update stamps key now
  | .get key nowCheck nowRenew =>
    if (Get c key nowCheck nowRenew).1.2 then Function.update stamps key nowRenew else stamps
  | .invalidate _ => stamps
  | .delete _ => stamps

/-- One call on a cache together with its table of stamps. -/
def Op.step {T : Type} [Inhabited T] (s : Cache T × (String → Time)) (op : Op T) :
    Cache T × (String → Time) :=
  (Op.apply s.1 op, Op.stamp s.1 s.2 op)

/-- A sequence of calls on a cache together with its table of stamps. -/
def runStamped {T : Type} [Inhabited T] (ops : List (Op T))
    (s : Cache T × (String → Time)) : Cache T × (String → Time) :=
  ops.foldl Op.step s

/-! ## The lock -/

/-- The two ways to take a `sync.RWMutex`: `RLock` and `Lock`. -/
inductive LockMode where
  | shared
  | exclusive
  deriving DecidableEq, Repr

/-- The methods of `Cache[T]`. -/
inductive Method where
  | Set
  | SetWithLifeDuration
  | Get
  | Invalidate
  | Delete
  deriving DecidableEq, Repr

/-- The lock that guards the body of each method in the source: `Get` opens
with `c.m.RLock()`; `SetWithLifeDuration`, `Invalidate` and `Delete` open with
`c.m.Lock()`; `Set` does its work inside `SetWithLifeDuration`. -/
def Method.lockMode : Method → LockMode
  | .Set => .exclusive
  | .SetWithLifeDuration => .exclusive
  | .Get => .shared
  | .Invalidate => .exclusive
  | .Delete => .exclusive

/-- Whether the body of the method assigns to `c.items` or deletes from it. -/
def Method.writesItems : Method → Bool
  | .Set => true
  | .SetWithLifeDuration => true
  | .Get => true
  | .Invalidate => true
  | .Delete => true

/-- Go: the holders of a `sync.RWMutex`, the number of readers and whether a
writer holds it. -/
structure RWMutex where
  readers : Nat
  writer : Bool
  deriving DecidableEq, Repr

/-- Go: `RLock` and `Lock` on a `sync.RWMutex`; `none` when the caller has to
wait. A reader waits for a writer, a writer waits for everybody. -/
def RWMutex.acquire (m : RWMutex) : LockMode → Option RWMutex
  | .shared => if m.writer then none else some ⟨m.readers + 1, false⟩
  | .exclusive => if m.writer || decide (0 < m.readers) then none else some ⟨0, true⟩

/-- Whether two calls can be inside their bodies at the same time: the second
takes the lock while the first still holds it. -/
def Method.overlaps (first second : Method) : Bool :=
  (((RWMutex.mk 0 false).acquire first.lockMode).bind
    (fun m => m.acquire second.lockMode)).isSome

/-! ## Reading and writing one key -/

section lemmas

variable {T : Type} [Inhabited T]

/-- The value that `SetWithLifeDuration` stores is the argument `value`: the
one-element slice built by `make` and `copy` holds it at index 0. -/
theorem copy_make_one (value : T) : (copy (make 1) [value]).headD default = value :=
  rfl

/-- The entry written by `SetWithLifeDuration`. -/
theorem lookup_SetWithLifeDuration (c : Cache T) (key : String) (value : T) (d : Duration)
    (now : Time) :
    (SetWithLifeDuration c key value d now).items.lookup key = some ⟨value, now + d⟩ := by
  simp only [SetWithLifeDuration, copy_make_one, Time.Add, Finmap.lookup_insert]

/-- The method `Get` on a key whose entry has not expired. -/
theorem Get_of_live (c : Cache T) (key : String) (v : T) (e nowCheck nowRenew : Time)
    (hk : c.items.lookup key = some ⟨v, e⟩) (hlive : nowCheck ≤ e) :
    Get c key nowCheck nowRenew =
      ((v, true), ⟨c.items.insert key ⟨v, nowRenew + c.ttl⟩, c.ttl⟩) := by
  have h : ¬ e < nowCheck := not_lt.mpr hlive
  simp [Get, hk, Time.After, Time.Add, h]

/-- The method `Get` on a key whose entry has expired. -/
theorem Get_of_expired (c : Cache T) (key : String) (v : T) (e nowCheck nowRenew : Time)
    (hk : c.items.lookup key = some ⟨v, e⟩) (hdead : e < nowCheck) :
    Get c key nowCheck nowRenew = ((default, false), ⟨c.items.erase key, c.ttl⟩) := by
  simp [Get, hk, Time.After, hdead]

/-- The method `Get` on a key that the map does not hold. -/
theorem Get_of_absent (c : Cache T) (key : String) (nowCheck nowRenew : Time)
    (hk : c.items.lookup key = none) :
    Get c key nowCheck nowRenew = ((default, false), c) := by
  simp [Get, hk]

end lemmas

/-! ## The sweep -/

section sweep

variable {T : Type}

/-- One iteration of the sweep, seen from key `k`. -/
theorem lookup_invalidateStep (now : Time) (items : Items T) (k k' : String)
    (v : CacheItem T) :
    (invalidateStep now items k' v).lookup k =
      if k' = k ∧ Time.After now v.ExpireAt = true then none else items.lookup k := by
  unfold invalidateStep
  by_cases hx : Time.After now v.ExpireAt = true
  · by_cases hkk : k' = k
    · subst hkk
      simp [hx, Finmap.lookup_erase]
    · simp [hx, hkk, Finmap.lookup_erase_ne (Ne.symm hkk)]
  · simp [hx]

/-- The sweep over a list of entries, seen from key `k`: the key is gone when
the list holds an expired entry for it, and is as before otherwise. -/
theorem lookup_foldl_invalidateStep (nowAt : String → Time)
    (l : List (Sigma fun _ : String => CacheItem T)) (items : Items T) (k : String) :
    (l.foldl (fun d s => invalidateStep (nowAt s.1) d s.1 s.2) items).lookup k =
      if l.any (fun s => decide (s.1 = k) && Time.After (nowAt k) s.2.ExpireAt) = true
      then none else items.lookup k := by
  induction l generalizing items with
  | nil => simp
  | cons s l ih =>
    rw [List.foldl_cons, ih, lookup_invalidateStep, List.any_cons]
    by_cases hl : l.any (fun s => decide (s.1 = k) && Time.After (nowAt k) s.2.ExpireAt) = true
    · simp [hl]
    · by_cases hk : s.1 = k
      · subst hk
        simp [hl]
      · simp [hl, hk]

/-- The map after `Invalidate`, key by key: an entry stays, unchanged, exactly
when the clock reading taken at its visit is not after its `ExpireAt`. -/
theorem lookup_Invalidate (c : Cache T) (nowAt : String → Time) (k : String) :
    (Invalidate c nowAt).items.lookup k =
      (c.items.lookup k).filter (fun v => !Time.After (nowAt k) v.ExpireAt) := by
  obtain ⟨items, ttl⟩ := c
  induction items using Finmap.induction_on with
  | H a =>
    show Finmap.lookup k (List.foldl (fun d s => invalidateStep (nowAt s.1) d s.1 s.2)
      (AList.toFinmap a) a.entries) = _
    rw [lookup_foldl_invalidateStep]
    cases hk : Finmap.lookup k (AList.toFinmap a) with
    | none =>
      rw [if_neg]
      · rfl
      · simp only [List.any_eq_true, Bool.and_eq_true, decide_eq_true_eq, not_exists, not_and]
        rintro ⟨k', v⟩ hv rfl
        have : v ∈ Finmap.lookup k' (AList.toFinmap a) := Finmap.mem_lookup_iff.mpr hv
        rw [hk] at this
        exact absurd this (Option.not_mem_none _)
    | some v =>
      have hmem : (⟨k, v⟩ : Sigma fun _ : String => CacheItem T) ∈ a.entries :=
        Finmap.mem_lookup_iff.mp hk
      by_cases hx : Time.After (nowAt k) v.ExpireAt = true
      · rw [if_pos]
        · simp [Option.filter, hx]
        · exact List.any_eq_true.mpr ⟨⟨k, v⟩, hmem, by simp [hx]⟩
      · rw [if_neg]
        · simp [Option.filter, hx]
        · simp only [List.any_eq_true, Bool.and_eq_true, decide_eq_true_eq, not_exists, not_and]
          rintro ⟨k', v'⟩ hv' rfl
          have h' : Finmap.lookup k' (AList.toFinmap a) = some v' :=
            Finmap.mem_lookup_iff.mpr hv'
          rw [hk] at h'
          cases h'
          exact hx

/-- Deleting a key that the map does not hold leaves the map as it is. -/
theorem erase_of_lookup_none (items : Items T) (k : String)
    (hk : items.lookup k = none) : items.erase k = items := by
  apply Finmap.ext_lookup
  intro x
  by_cases hx : x = k
  · subst hx
    rw [Finmap.lookup_erase, hk]
  · exact Finmap.lookup_erase_ne hx

/-- The method `Delete` on `key` leaves every other key alone. -/
theorem lookup_Delete_of_ne (c : Cache T) (key k : String) (hne : k ≠ key) :
    (Delete c key).items.lookup k = c.items.lookup k :=
  Finmap.lookup_erase_ne hne

/-- Writing `key` with a strictly positive lifetime at reading `now`, and
stamping it with `now`, keeps every stamp strictly before its expiration. -/
theorem stamp_lt_of_insert (items : Items T) (stamps : String → Time) (key : String) (v : T)
    (now : Time) (d : Duration) (hd : 0 < d)
    (hinv : ∀ k item, items.lookup k = some item → stamps k < item.ExpireAt) :
    ∀ k item, (items.insert key ⟨v, now + d⟩).lookup k = some item →
      Function.update stamps key now k < item.ExpireAt := by
  intro k item hk
  by_cases hkk : k = key
  · subst hkk
    rw [Finmap.lookup_insert] at hk
    cases hk
    rw [Function.update_same]
    exact lt_add_of_pos_right now hd
  · rw [Finmap.lookup_insert_of_ne _ hkk] at hk
    rw [Function.update_noteq hkk]
    exact hinv k item hk

/-- Removing `key` keeps every stamp strictly before its expiration. -/
theorem stamp_lt_of_erase (items : Items T) (stamps : String → Time) (key : String)
    (hinv : ∀ k item, items.lookup k = some item → stamps k < item.ExpireAt) :
    ∀ k item, (items.erase key).lookup k = some item → stamps k < item.ExpireAt := by
  intro k item hk
  by_cases hkk : k = key
  · subst hkk
    rw [Finmap.lookup_erase] at hk
    cases hk
  · rw [Finmap.lookup_erase_ne hkk] at hk
    exact hinv k item hk

end sweep

/-! ## The contract of the cache -/

section contract

variable {T : Type} [Inhabited T]

/-- C1 (round trip). `Set(K, V)` at clock reading `t`, then `Get(K)` whose
expiry test reads the clock at `t'` with `t'` not after `t + defaultTTL`,
returns `(V, true)`. Nothing is assumed on the state before, on the reading
`r` that `Get` takes for the renewal, or on the order of `t` and `t'`. -/
theorem Set_Get_round_trip (c : Cache T) (K : String) (V : T) (t t' r : Time)
    (h : t' ≤ t + c.ttl) :
    (Get (Set c K V t) K t' r).1 = (V, true) := by
  rw [Get_of_live (Set c K V t) K V (t + c.ttl) t' r
    (lookup_SetWithLifeDuration c K V c.ttl t) h]

/-- C2 (Get on a live entry). When `K` maps to `(v, e)` and the clock reading
`now` of the expiry test is not after `e`, `Get(K)` returns `(v, true)` and
afterwards `K` maps to `(v, r + defaultTTL)`, where `r` is the clock reading
of the renewal (`r = now` when the call runs within one instant). The entry
`(v, e)` is any entry, so the lifetime it was created with plays no role. -/
theorem Get_live_renews_with_default_ttl (c : Cache T) (K : String) (v : T)
    (e now r : Time) (hk : c.items.lookup K = some ⟨v, e⟩) (hlive : now ≤ e) :
    (Get c K now r).1 = (v, true) ∧
      (Get c K now r).2.items.lookup K = some ⟨v, r + c.ttl⟩ := by
  rw [Get_of_live c K v e now r hk hlive]
  exact ⟨rfl, Finmap.lookup_insert _⟩

/-- C3 (Get on an expired entry). When `K` maps to `(v, e)`: if the clock
reading `now` of the expiry test is strictly after `e`, `Get(K)` returns
`(default, false)` and `K` is absent afterwards; if the reading is `e` itself
the entry is not expired and `Get(K)` returns `(v, true)`. -/
theorem Get_expired_removes (c : Cache T) (K : String) (v : T) (e : Time)
    (hk : c.items.lookup K = some ⟨v, e⟩) :
    (∀ now r : Time, e < now →
      (Get c K now r).1 = (default, false) ∧ (Get c K now r).2.items.lookup K = none) ∧
    (∀ r : Time, (Get c K e r).1 = (v, true)) := by
  constructor
  · intro now r hdead
    rw [Get_of_expired c K v e now r hk hdead]
    exact ⟨rfl, Finmap.lookup_erase _ _⟩
  · intro r
    rw [Get_of_live c K v e e r hk le_rfl]

/-- C4 (absence). When `K` is not in the map, `Get(K)` at any clock readings
returns `(default, false)` and the cache after the call is the cache before. -/
theorem Get_absent (c : Cache T) (K : String) (now r : Time)
    (hk : c.items.lookup K = none) :
    (Get c K now r).1 = (default, false) ∧ (Get c K now r).2 = c := by
  rw [Get_of_absent c K now r hk]
  exact ⟨rfl, rfl⟩

/-- C5 (postcondition of `SetWithLifeDuration`, the spec's `SetWithTTL`).
After `SetWithLifeDuration(K, V, d)` at clock reading `now`, the map holds
`K -> (V, now + d)`, whatever the cache held before. -/
theorem SetWithLifeDuration_post (c : Cache T) (K : String) (V : T) (d : Duration)
    (now : Time) :
    (SetWithLifeDuration c K V d now).items.lookup K = some ⟨V, now + d⟩ :=
  lookup_SetWithLifeDuration c K V d now

/-- C6 (`Invalidate` removes exactly the expired entries). `nowAt k` is the
clock reading of the iteration that visits `k`; a sweep that runs within one
instant `now` is `nowAt = fun _ => now`. After `Invalidate()` a key maps to
`v` exactly when it mapped to `v` before and the reading at its visit is not
after `v.ExpireAt`; an entry whose `ExpireAt` is strictly before that reading
is gone. In the scenario of the spec (`a` set for 10ms and `b` for 10s at
`t`, `Invalidate()` and both reads 20ms later) `a` is not found and `b` is
found with its value. -/
theorem Invalidate_removes_exactly_expired (c : Cache T) (nowAt : String → Time) :
    (∀ (k : String) (v : CacheItem T),
      (Invalidate c nowAt).items.lookup k = some v ↔
        (c.items.lookup k = some v ∧ ¬ v.ExpireAt < nowAt k)) ∧
    (∀ (k : String) (v : CacheItem T), c.items.lookup k = some v → v.ExpireAt < nowAt k →
      (Invalidate c nowAt).items.lookup k = none) ∧
    (∀ (Va Vb : T) (t r : Time),
      (Get (Invalidate (SetWithLifeDuration (SetWithLifeDuration c "a" Va (10 * Millisecond) t)
          "b" Vb (10 * Second) t) (fun _ => t + 20 * Millisecond))
        "a" (t + 20 * Millisecond) r).1 = (default, false) ∧
      (Get (Invalidate (SetWithLifeDuration (SetWithLifeDuration c "a" Va (10 * Millisecond) t)
          "b" Vb (10 * Second) t) (fun _ => t + 20 * Millisecond))
        "b" (t + 20 * Millisecond) r).1 = (Vb, true)) := by
  refine ⟨?_, ?_, ?_⟩
  · intro k v
    rw [lookup_Invalidate]
    cases hk : c.items.lookup k with
    | none => simp [Option.filter]
    | some w =>
      by_cases hx : w.ExpireAt < nowAt k
      · simp only [Option.filter, Time.After, hx, decide_True, Bool.not_true, Bool.false_eq_true,
          if_false, Option.some.injEq]
        constructor
        · intro h
          cases h
        · rintro ⟨rfl, h⟩
          exact absurd hx h
      · simp only [Option.filter, Time.After, hx, decide_False, Bool.not_false, if_true,
          Option.some.injEq]
        constructor
        · rintro rfl
          exact ⟨rfl, hx⟩
        · exact fun h => h.1
  · intro k v hk hx
    rw [lookup_Invalidate, hk]
    simp [Option.filter, Time.After, hx]
  · intro Va Vb t r
    have hab : ("b" : String) ≠ "a" := by decide
    have ha : (Invalidate (SetWithLifeDuration (SetWithLifeDuration c "a" Va
        (10 * Millisecond) t) "b" Vb (10 * Second) t)
        (fun _ => t + 20 * Millisecond)).items.lookup "a" = none := by
      rw [lookup_Invalidate]
      have h1 : (SetWithLifeDuration (SetWithLifeDuration c "a" Va (10 * Millisecond) t)
          "b" Vb (10 * Second) t).items.lookup "a" = some ⟨Va, t + 10 * Millisecond⟩ := by
        rw [← lookup_SetWithLifeDuration c "a" Va (10 * Millisecond) t]
        exact Finmap.lookup_insert_of_ne _ (Ne.symm hab)
      rw [h1]
      have h2 : t + 10 * Millisecond < t + 20 * Millisecond := by
        norm_num [Millisecond]
      simp [Option.filter, Time.After, h2]
    have hb : (Invalidate (SetWithLifeDuration (SetWithLifeDuration c "a" Va
        (10 * Millisecond) t) "b" Vb (10 * Second) t)
        (fun _ => t + 20 * Millisecond)).items.lookup "b" = some ⟨Vb, t + 10 * Second⟩ := by
      rw [lookup_Invalidate, lookup_SetWithLifeDuration]
      have h2 : ¬ t + 10 * Second < t + 20 * Millisecond := by
        norm_num [Second, Millisecond]
      simp [Option.filter, Time.After, h2]
    have h3 : t + 20 * Millisecond ≤ t + 10 * Second := by
      norm_num [Second, Millisecond]
    rw [Get_of_absent _ "a" _ r ha, Get_of_live _ "b" Vb _ _ r hb h3]
    exact ⟨rfl, rfl⟩

/-- C7 (`Delete` removes immediately). After `Delete(K)` the key `K` is
absent, so `Get(K)` returns `(default, false)` at any clock readings, whatever
the expiry of the deleted entry was; when `K` was absent already, the cache
after `Delete(K)` is the cache before. -/
theorem Delete_removes (c : Cache T) (K : String) :
    (Delete c K).items.lookup K = none ∧
    (∀ now r : Time, (Get (Delete c K) K now r).1 = (default, false)) ∧
    (c.items.lookup K = none → Delete c K = c) := by
  have h : (Delete c K).items.lookup K = none := Finmap.lookup_erase _ _
  refine ⟨h, ?_, ?_⟩
  · intro now r
    rw [Get_of_absent (Delete c K) K now r h]
  · intro hk
    obtain ⟨items, ttl⟩ := c
    show Cache.mk (Finmap.erase K items) ttl = Cache.mk items ttl
    rw [erase_of_lookup_none items K hk]

/-- C8 (`Set` is `SetWithLifeDuration` at the default TTL). The cache after
`Set(K, V)` is the cache after `SetWithLifeDuration(K, V, c.ttl)` taken at
the same clock reading, and it is the cache that the specification describes
for `SetWithTTL(K, V, defaultTTL)`. -/
theorem Set_eq_SetWithLifeDuration_default (c : Cache T) (K : String) (V : T) (now : Time) :
    Set c K V now = SetWithLifeDuration c K V c.ttl now ∧
      Set c K V now = specSetWithTTL c K V c.ttl now := by
  refine ⟨rfl, ?_⟩
  simp only [Set, SetWithLifeDuration, specSetWithTTL, copy_make_one, Time.Add]

/-- C9 (expiry by time). `Set(K, V)` at clock reading `t`, then `Get(K)` whose
expiry test reads the clock at `t'` strictly after `t + defaultTTL`, returns
`(default, false)`. -/
theorem Set_Get_expired (c : Cache T) (K : String) (V : T) (t t' r : Time)
    (h : t + c.ttl < t') :
    (Get (Set c K V t) K t' r).1 = (default, false) := by
  rw [Get_of_expired (Set c K V t) K V (t + c.ttl) t' r
    (lookup_SetWithLifeDuration c K V c.ttl t) h]

/-- C10 (renewal on read keeps an entry alive). `Set(K, V)` at `t0`, a first
`Get(K)` whose expiry test reads `t1`, not after `t0 + defaultTTL`, and whose
renewal reads `r1`, not before `t1` (`r1 = t1` when the call runs within one
instant), then a second `Get(K)` whose expiry test reads `t2`, not after
`t1 + defaultTTL`: the second `Get` returns `(V, true)`. Nothing relates `t2`
to `t0 + defaultTTL`. -/
theorem Get_renewal_keeps_alive (c : Cache T) (K : String) (V : T)
    (t0 t1 r1 t2 r2 : Time) (h1 : t1 ≤ t0 + c.ttl) (hr : t1 ≤ r1) (h2 : t2 ≤ t1 + c.ttl) :
    (Get (Get (Set c K V t0) K t1 r1).2 K t2 r2).1 = (V, true) := by
  rw [Get_of_live (Set c K V t0) K V (t0 + c.ttl) t1 r1
    (lookup_SetWithLifeDuration c K V c.ttl t0) h1]
  have hk : (Cache.mk ((Set c K V t0).items.insert K ⟨V, r1 + (Set c K V t0).ttl⟩)
      (Set c K V t0).ttl).items.lookup K = some ⟨V, r1 + c.ttl⟩ :=
    Finmap.lookup_insert _
  have h3 : t2 ≤ r1 + c.ttl := le_trans h2 (add_le_add_right hr _)
  rw [Get_of_live _ K V (r1 + c.ttl) t2 r2 hk h3]

/-! ## The theorems at concrete inputs -/

/-- Default TTL 5: written at 100, read at 103. -/
theorem Set_Get_round_trip_witness :
    (103 : Time) ≤ 100 + (NewCache 5 : Cache Int).ttl ∧
      (Get (Set (NewCache 5 : Cache Int) "a" 7 100) "a" 103 104).1 = (7, true) :=
  ⟨by decide, Set_Get_round_trip (NewCache 5) "a" 7 100 103 104 (by decide)⟩

/-- Default TTL 5, an entry written at 100 for a lifetime of 1000 and read at 200:
after the read it expires at 201 + 5 and no longer at 1100. -/
theorem Get_live_renews_with_default_ttl_witness :
    (Get (SetWithLifeDuration (NewCache 5 : Cache Int) "a" 7 1000 100) "a" 200 201).1
        = (7, true) ∧
      (Get (SetWithLifeDuration (NewCache 5 : Cache Int) "a" 7 1000 100) "a" 200 201).2.items.lookup
        "a" = some ⟨7, 201 + 5⟩ :=
  Get_live_renews_with_default_ttl (SetWithLifeDuration (NewCache 5) "a" 7 1000 100) "a" 7
    1100 200 201 (by decide) (by decide)

/-- Default TTL 5, an entry written at 100: a miss at 106, a hit at 105. -/
theorem Get_expired_removes_witness :
    ((Get (Set (NewCache 5 : Cache Int) "a" 7 100) "a" 106 106).1 = (0, false) ∧
      (Get (Set (NewCache 5 : Cache Int) "a" 7 100) "a" 106 106).2.items.lookup "a" = none) ∧
    (Get (Set (NewCache 5 : Cache Int) "a" 7 100) "a" 105 106).1 = (7, true) :=
  ⟨(Get_expired_removes (Set (NewCache 5) "a" 7 100) "a" 7 105 (by decide)).1 106 106
      (by decide),
    (Get_expired_removes (Set (NewCache 5) "a" 7 100) "a" 7 105 (by decide)).2 106⟩

/-- A read of the key `a` after it was written and deleted. -/
theorem Get_absent_witness :
    (Get (Delete (Set (NewCache 5 : Cache Int) "a" 7 100) "a") "a" 101 101).1 = (0, false) ∧
      (Get (Delete (Set (NewCache 5 : Cache Int) "a" 7 100) "a") "a" 101 101).2
        = Delete (Set (NewCache 5 : Cache Int) "a" 7 100) "a" :=
  Get_absent (Delete (Set (NewCache 5) "a" 7 100) "a") "a" 101 101 (by decide)

/-- The entry `a` expires at 10 and is gone after a sweep at 20. -/
theorem Invalidate_removes_exactly_expired_witness :
    (Invalidate (SetWithLifeDuration (SetWithLifeDuration (NewCache 5 : Cache Int) "a" 1 10 0)
      "b" 1 10000 0) (fun _ => 20)).items.lookup "a" = none :=
  (Invalidate_removes_exactly_expired (SetWithLifeDuration (SetWithLifeDuration
    (NewCache 5 : Cache Int) "a" 1 10 0) "b" 1 10000 0) (fun _ => 20)).2.1 "a" ⟨1, 10⟩
    (by decide) (by decide)

/-- Deleting the key `b` from a cache that holds the key `a` only. -/
theorem Delete_removes_witness :
    Delete (Set (NewCache 5 : Cache Int) "a" 7 100) "b" = Set (NewCache 5 : Cache Int) "a" 7 100 :=
  (Delete_removes (Set (NewCache 5 : Cache Int) "a" 7 100) "b").2.2 (by decide)

/-- Default TTL 50ms: written at 0, read at 60ms. -/
theorem Set_Get_expired_witness :
    (0 : Time) + (NewCache (50 * Millisecond) : Cache Int).ttl < 60 * Millisecond ∧
      (Get (Set (NewCache (50 * Millisecond) : Cache Int) "a" 1 0) "a" (60 * Millisecond)
        (60 * Millisecond)).1 = (0, false) :=
  ⟨by decide, Set_Get_expired (NewCache (50 * Millisecond)) "a" 1 0 (60 * Millisecond)
    (60 * Millisecond) (by decide)⟩

/-- Default TTL 200ms: written at 0, read at 100ms and again at 250ms. -/
theorem Get_renewal_keeps_alive_witness :
    (0 : Time) + (NewCache (200 * Millisecond) : Cache Int).ttl < 250 * Millisecond ∧
      (Get (Get (Set (NewCache (200 * Millisecond) : Cache Int) "a" 1 0) "a"
        (100 * Millisecond) (100 * Millisecond)).2 "a" (250 * Millisecond)
        (250 * Millisecond)).1 = (1, true) :=
  ⟨by decide, Get_renewal_keeps_alive (NewCache (200 * Millisecond)) "a" 1 0
    (100 * Millisecond) (100 * Millisecond) (250 * Millisecond) (250 * Millisecond)
    (by decide) (by decide) (by decide)⟩

/-! ## Other keys and the default TTL -/

/-- The method `SetWithLifeDuration` on `key` leaves every other key alone. -/
theorem lookup_SetWithLifeDuration_of_ne (c : Cache T) (key k : String) (value : T)
    (d : Duration) (now : Time) (hne : k ≠ key) :
    (SetWithLifeDuration c key value d now).items.lookup k = c.items.lookup k :=
  Finmap.lookup_insert_of_ne _ hne

/-- The method `Get` on `key` leaves every other key alone. -/
theorem lookup_Get_of_ne (c : Cache T) (key k : String) (nowCheck nowRenew : Time)
    (hne : k ≠ key) :
    (Get c key nowCheck nowRenew).2.items.lookup k = c.items.lookup k := by
  unfold Get
  cases c.items.lookup key with
  | none => rfl
  | some item =>
    by_cases hx : Time.After nowCheck item.ExpireAt = true
    · simp only [hx, if_true]
      exact Finmap.lookup_erase_ne hne
    · simp only [hx, if_false]
      exact Finmap.lookup_insert_of_ne _ hne

/-- The method `Get` keeps the default TTL. -/
theorem ttl_Get (c : Cache T) (key : String) (nowCheck nowRenew : Time) :
    (Get c key nowCheck nowRenew).2.ttl = c.ttl := by
  cases hk : c.items.lookup key with
  | none => rw [Get_of_absent c key nowCheck nowRenew hk]
  | some item =>
    obtain ⟨v, e⟩ := item
    by_cases hx : e < nowCheck
    · rw [Get_of_expired c key v e nowCheck nowRenew hk hx]
    · rw [Get_of_live c key v e nowCheck nowRenew hk (not_lt.mp hx)]

/-- A key that `Get` misses, or that the map does not hold, is not in the
map after `Get`. -/
theorem lookup_Get_of_miss (c : Cache T) (key : String) (nowCheck nowRenew : Time)
    (h : (Get c key nowCheck nowRenew).1.2 = false) :
    (Get c key nowCheck nowRenew).1.1 = default ∧
      (Get c key nowCheck nowRenew).2.items.lookup key = none := by
  cases hk : c.items.lookup key with
  | none =>
    rw [Get_of_absent c key nowCheck nowRenew hk]
    exact ⟨rfl, hk⟩
  | some item =>
    obtain ⟨v, e⟩ := item
    by_cases hx : e < nowCheck
    · rw [Get_of_expired c key v e nowCheck nowRenew hk hx]
      exact ⟨rfl, Finmap.lookup_erase _ _⟩
    · rw [Get_of_live c key v e nowCheck nowRenew hk (not_lt.mp hx)] at h
      cases h

/-- A key that the map does not hold is still not held after any call other
than `Set` or `SetWithLifeDuration` on that key. -/
theorem lookup_apply_of_absent (c : Cache T) (key : String) (op : Op T)
    (hop : Op.setsKey key op = false) (hk : c.items.lookup key = none) :
    (Op.apply c op).items.lookup key = none := by
  cases op with
  | set k v now =>
    have hne : key ≠ k := fun h => by simp [Op.setsKey, h] at hop
    show (SetWithLifeDuration c k v c.ttl now).items.lookup key = none
    rw [lookup_SetWithLifeDuration_of_ne c k key v c.ttl now hne, hk]
  | setWithLifeDuration k v d now =>
    have hne : key ≠ k := fun h => by simp [Op.setsKey, h] at hop
    show (SetWithLifeDuration c k v d now).items.lookup key = none
    rw [lookup_SetWithLifeDuration_of_ne c k key v d now hne, hk]
  | get k nc nr =>
    show (Get c k nc nr).2.items.lookup key = none
    by_cases hkk : key = k
    · subst hkk
      rw [Get_of_absent c key nc nr hk]
      exact hk
    · rw [lookup_Get_of_ne c k key nc nr hkk, hk]
  | invalidate nowAt =>
    show (Invalidate c nowAt).items.lookup key = none
    rw [lookup_Invalidate, hk]
    rfl
  | delete k =>
    show (Delete c k).items.lookup key = none
    by_cases hkk : key = k
    · subst hkk
      exact Finmap.lookup_erase _ _
    · rw [lookup_Delete_of_ne c k key hkk, hk]

/-- A key that the map does not hold is still not held after any sequence of
calls none of which is `Set` or `SetWithLifeDuration` on that key. -/
theorem lookup_run_of_absent (ops : List (Op T)) (c : Cache T) (key : String)
    (hops : ∀ op ∈ ops, Op.setsKey key op = false) (hk : c.items.lookup key = none) :
    (run ops c).items.lookup key = none := by
  induction ops generalizing c with
  | nil => exact hk
  | cons op ops ih =>
    show (run ops (Op.apply c op)).items.lookup key = none
    exact ih (Op.apply c op) (fun o ho => hops o (List.mem_cons_of_mem _ ho))
      (lookup_apply_of_absent c key op (hops op (List.mem_cons_self _ _)) hk)

/-! ## The contract, continued -/

/-- C11 (overwrite resets expiration). `SetWithLifeDuration(K, V1, d1)` at
`t0`, `SetWithLifeDuration(K, V2, d2)` at `t1`, then `Get(K)` whose expiry
test reads `t2`, not after `t1 + d2`: the `Get` returns `(V2, true)`. Nothing
relates `t2` to `t0 + d1`, and the order of the readings plays no role. -/
theorem SetWithLifeDuration_overwrite_resets (c : Cache T) (K : String) (V1 V2 : T)
    (d1 d2 : Duration) (t0 t1 t2 r : Time) (h : t2 ≤ t1 + d2) :
    (Get (SetWithLifeDuration (SetWithLifeDuration c K V1 d1 t0) K V2 d2 t1) K t2 r).1
      = (V2, true) := by
  rw [Get_of_live _ K V2 (t1 + d2) t2 r
    (lookup_SetWithLifeDuration (SetWithLifeDuration c K V1 d1 t0) K V2 d2 t1) h]

/-- C12, as amended. When `K` maps to `(v, e)` and the clock reading `now` of
the expiry test is not after `e`, the entry of `K` after `Get(K)` is
`(v, r + defaultTTL)`, `r` being the reading of the renewal. Its `ExpireAt`
is later than or equal to `e` when `e` is not after `r + defaultTTL`, which
is the case of an entry written by `Set` or renewed by `Get` at a reading `t`
not after `r`; it is strictly earlier than `e` otherwise. -/
theorem Get_renewal_expiry (c : Cache T) (K : String) (v : T) (e now r : Time)
    (hk : c.items.lookup K = some ⟨v, e⟩) (hlive : now ≤ e) :
    ∃ item : CacheItem T, (Get c K now r).2.items.lookup K = some item ∧
      item.Value = v ∧ item.ExpireAt = r + c.ttl ∧
      (e ≤ r + c.ttl → e ≤ item.ExpireAt) ∧
      (r + c.ttl < e → item.ExpireAt < e) ∧
      (∀ t : Time, e = t + c.ttl → t ≤ r → e ≤ item.ExpireAt) := by
  refine ⟨⟨v, r + c.ttl⟩, ?_, rfl, rfl, fun h => h, fun h => h, ?_⟩
  · rw [Get_of_live c K v e now r hk hlive]
    exact Finmap.lookup_insert _
  · rintro t rfl htr
    exact add_le_add_right htr _

/-- C15 (frame). For `K' ≠ K`, each of `Set(K, ..)`, `SetWithLifeDuration(K,
..)`, `Get(K)` and `Delete(K)` leaves the entry of `K'` as it was, and no
method, `Invalidate` included, changes the default TTL. -/
theorem frame_other_key_and_ttl (c : Cache T) (K K' : String) (V : T) (d : Duration)
    (now nowCheck nowRenew : Time) (nowAt : String → Time) (hne : K' ≠ K) :
    ((Set c K V now).items.lookup K' = c.items.lookup K' ∧
      (SetWithLifeDuration c K V d now).items.lookup K' = c.items.lookup K' ∧
      (Get c K nowCheck nowRenew).2.items.lookup K' = c.items.lookup K' ∧
      (Delete c K).items.lookup K' = c.items.lookup K') ∧
    ((Set c K V now).ttl = c.ttl ∧
      (SetWithLifeDuration c K V d now).ttl = c.ttl ∧
      (Get c K nowCheck nowRenew).2.ttl = c.ttl ∧
      (Delete c K).ttl = c.ttl ∧
      (Invalidate c nowAt).ttl = c.ttl) :=
  ⟨⟨lookup_SetWithLifeDuration_of_ne c K K' V c.ttl now hne,
      lookup_SetWithLifeDuration_of_ne c K K' V d now hne,
      lookup_Get_of_ne c K K' nowCheck nowRenew hne,
      lookup_Delete_of_ne c K K' hne⟩,
    ⟨rfl, rfl, ttl_Get c K nowCheck nowRenew, rfl, rfl⟩⟩

/-- C16 (the sweep is invisible to readers). `nowAt K` is the clock reading
that `Invalidate()` takes at its visit of `K`, `nowCheck` the reading of the
expiry test of the `Get(K)` that follows, not before `nowAt K`. The pair that
`Get(K)` returns, and the entry of `K` after it, are the same with and
without the sweep. -/
theorem Invalidate_invisible_to_Get (c : Cache T) (K : String) (nowAt : String → Time)
    (nowCheck nowRenew : Time) (h : nowAt K ≤ nowCheck) :
    (Get (Invalidate c nowAt) K nowCheck nowRenew).1 = (Get c K nowCheck nowRenew).1 ∧
      (Get (Invalidate c nowAt) K nowCheck nowRenew).2.items.lookup K =
        (Get c K nowCheck nowRenew).2.items.lookup K := by
  have hinv := lookup_Invalidate c nowAt K
  cases hk : c.items.lookup K with
  | none =>
    rw [hk] at hinv
    rw [Get_of_absent _ K nowCheck nowRenew hinv, Get_of_absent c K nowCheck nowRenew hk]
    exact ⟨rfl, hinv.trans hk.symm⟩
  | some item =>
    obtain ⟨v, e⟩ := item
    rw [hk] at hinv
    by_cases hsweep : e < nowAt K
    · have hnone : (Invalidate c nowAt).items.lookup K = none := by
        rw [hinv]
        simp [Option.filter, Time.After, hsweep]
      rw [Get_of_absent _ K nowCheck nowRenew hnone,
        Get_of_expired c K v e nowCheck nowRenew hk (lt_of_lt_of_le hsweep h)]
      exact ⟨rfl, hnone.trans (Finmap.lookup_erase K c.items).symm⟩
    · have hsome : (Invalidate c nowAt).items.lookup K = some ⟨v, e⟩ := by
        rw [hinv]
        simp [Option.filter, Time.After, hsweep]
      by_cases hx : e < nowCheck
      · rw [Get_of_expired _ K v e nowCheck nowRenew hsome hx,
          Get_of_expired c K v e nowCheck nowRenew hk hx]
        exact ⟨rfl, (Finmap.lookup_erase K (Invalidate c nowAt).items).trans
          (Finmap.lookup_erase K c.items).symm⟩
      · rw [Get_of_live _ K v e nowCheck nowRenew hsome (not_lt.mp hx),
          Get_of_live c K v e nowCheck nowRenew hk (not_lt.mp hx)]
        refine ⟨rfl, ?_⟩
        show Finmap.lookup K (Finmap.insert K _ (Invalidate c nowAt).items) =
          Finmap.lookup K (Finmap.insert K _ c.items)
        rw [Finmap.lookup_insert, Finmap.lookup_insert]
        rfl

/-- C17 (a miss leaves the key absent). When `Get(K)` returns `found = false`,
the value it returns is `default` and `K` is not in the map afterwards; after
any sequence of calls none of which is `Set` or `SetWithLifeDuration` on `K`
(the empty sequence included), `Get(K)` at any clock readings returns
`(default, false)` again. -/
theorem Get_miss_stays_absent (c : Cache T) (K : String) (nowCheck nowRenew : Time)
    (h : (Get c K nowCheck nowRenew).1.2 = false) :
    (Get c K nowCheck nowRenew).1.1 = default ∧
    (Get c K nowCheck nowRenew).2.items.lookup K = none ∧
    (∀ (ops : List (Op T)), (∀ op ∈ ops, Op.setsKey K op = false) →
      ∀ t r : Time, (Get (run ops (Get c K nowCheck nowRenew).2) K t r).1 = (default, false)) := by
  obtain ⟨hv, hk⟩ := lookup_Get_of_miss c K nowCheck nowRenew h
  refine ⟨hv, hk, ?_⟩
  intro ops hops t r
  rw [Get_of_absent _ K t r (lookup_run_of_absent ops _ K hops hk)]

/-- C18 (negative and zero TTL). `Set(K, V)` at `t`, then `Get(K)` whose expiry
test reads `t'`, not before `t`. With a strictly negative default TTL, `Set`
stores an entry whose `ExpireAt` is before `t`, and `Get` returns
`(default, false)` and leaves `K` absent. With a default TTL of zero, `Get`
finds the entry exactly when `t' = t`. -/
theorem Set_Get_nonpositive_ttl (c : Cache T) (K : String) (V : T) (t t' r : Time)
    (h : t ≤ t') :
    (c.ttl < 0 →
      (∃ e : Time, (Set c K V t).items.lookup K = some ⟨V, e⟩ ∧ e < t) ∧
      (Get (Set c K V t) K t' r).1 = (default, false) ∧
      (Get (Set c K V t) K t' r).2.items.lookup K = none) ∧
    (c.ttl = 0 → ((Get (Set c K V t) K t' r).1.2 = true ↔ t' = t)) := by
  have hk : (Set c K V t).items.lookup K = some ⟨V, t + c.ttl⟩ :=
    lookup_SetWithLifeDuration c K V c.ttl t
  constructor
  · intro hneg
    have hlt : t + c.ttl < t := add_lt_iff_neg_left.mpr hneg
    rw [Get_of_expired (Set c K V t) K V (t + c.ttl) t' r hk (lt_of_lt_of_le hlt h)]
    exact ⟨⟨t + c.ttl, hk, hlt⟩, rfl, Finmap.lookup_erase _ _⟩
  · intro hzero
    rw [hzero, add_zero] at hk
    by_cases hx : t < t'
    · rw [Get_of_expired (Set c K V t) K V t t' r hk hx]
      constructor
      · intro hf
        cases hf
      · intro heq
        exact absurd heq (ne_of_gt hx)
    · rw [Get_of_live (Set c K V t) K V t t' r hk (not_lt.mp hx)]
      exact ⟨fun _ => le_antisymm (not_lt.mp hx) h, fun _ => rfl⟩

/-! ## Stamps and expirations -/

/-- One call with a strictly positive lifetime, on a cache with a strictly
positive default TTL, keeps the default TTL and keeps every stamp strictly
before its expiration. -/
theorem step_stamp_lt (s : Cache T × (String → Time)) (op : Op T) (httl : 0 < s.1.ttl)
    (hop : Op.positiveDuration op = true)
    (hinv : ∀ k item, s.1.items.lookup k = some item → s.2 k < item.ExpireAt) :
    (Op.step s op).1.ttl = s.1.ttl ∧
      ∀ k item, (Op.step s op).1.items.lookup k = some item →
        (Op.step s op).2 k < item.ExpireAt := by
  obtain ⟨c, stamps⟩ := s
  cases op with
  | set key v now =>
    refine ⟨rfl, ?_⟩
    show ∀ k item, (SetWithLifeDuration c key v c.ttl now).items.lookup k = some item →
      Function.update stamps key now k < item.ExpireAt
    simp only [SetWithLifeDuration, copy_make_one, Time.Add]
    exact stamp_lt_of_insert c.items stamps key v now c.ttl httl hinv
  | setWithLifeDuration key v d now =>
    refine ⟨rfl, ?_⟩
    have hd : 0 < d := by simpa [Op.positiveDuration] using hop
    show ∀ k item, (SetWithLifeDuration c key v d now).items.lookup k = some item →
      Function.update stamps key now k < item.ExpireAt
    simp only [SetWithLifeDuration, copy_make_one, Time.Add]
    exact stamp_lt_of_insert c.items stamps key v now d hd hinv
  | get key nc nr =>
    refine ⟨ttl_Get c key nc nr, ?_⟩
    show ∀ k item, (Get c key nc nr).2.items.lookup k = some item →
      (if (Get c key nc nr).1.2 = true then Function.update stamps key nr else stamps) k
        < item.ExpireAt
    cases hk : c.items.lookup key with
    | none =>
      rw [Get_of_absent c key nc nr hk]
      exact hinv
    | some it =>
      obtain ⟨v, e⟩ := it
      by_cases hx : e < nc
      · rw [Get_of_expired c key v e nc nr hk hx]
        exact stamp_lt_of_erase c.items stamps key hinv
      · rw [Get_of_live c key v e nc nr hk (not_lt.mp hx)]
        exact stamp_lt_of_insert c.items stamps key v nr c.ttl httl hinv
  | invalidate nowAt =>
    refine ⟨rfl, ?_⟩
    show ∀ k item, (Invalidate c nowAt).items.lookup k = some item → stamps k < item.ExpireAt
    intro k item hk
    rw [lookup_Invalidate] at hk
    cases hc : c.items.lookup k with
    | none =>
      rw [hc] at hk
      cases hk
    | some it =>
      rw [hc] at hk
      have hit : it = item := by
        by_cases hx : Time.After (nowAt k) it.ExpireAt = true
        · simp [Option.filter, hx] at hk
        · simpa [Option.filter, hx] using hk
      subst hit
      exact hinv k it hc
  | delete key =>
    exact ⟨rfl, stamp_lt_of_erase c.items stamps key hinv⟩

/-- A sequence of calls with strictly positive lifetimes, on a cache with a
strictly positive default TTL, keeps every stamp strictly before its
expiration. -/
theorem runStamped_stamp_lt (ops : List (Op T)) (s : Cache T × (String → Time))
    (httl : 0 < s.1.ttl) (hops : ∀ op ∈ ops, Op.positiveDuration op = true)
    (hinv : ∀ k item, s.1.items.lookup k = some item → s.2 k < item.ExpireAt) :
    ∀ k item, (runStamped ops s).1.items.lookup k = some item →
      (runStamped ops s).2 k < item.ExpireAt := by
  induction ops generalizing s with
  | nil => exact hinv
  | cons op ops ih =>
    have hstep := step_stamp_lt s op httl (hops op (List.mem_cons_self _ _)) hinv
    show ∀ k item, (runStamped ops (Op.step s op)).1.items.lookup k = some item →
      (runStamped ops (Op.step s op)).2 k < item.ExpireAt
    exact ih (Op.step s op) (hstep.1 ▸ httl) (fun o ho => hops o (List.mem_cons_of_mem _ ho))
      hstep.2

/-- C13, as amended. From `NewCache(ttl)` with `ttl` strictly positive, after
any sequence of `Set`, `SetWithLifeDuration`, `Get`, `Delete` and `Invalidate`
calls in which every lifetime passed to `SetWithLifeDuration` is strictly
positive (any clock readings), every entry of the map has an `ExpireAt`
strictly later than the clock reading at which it was last written or
renewed. The table of stamps before the first call is arbitrary. -/
theorem expireAt_after_last_write (ttl : Duration) (httl : 0 < ttl) (ops : List (Op T))
    (hops : ∀ op ∈ ops, Op.positiveDuration op = true) (stamps : String → Time)
    (k : String) (item : CacheItem T)
    (hk : (runStamped ops (NewCache ttl, stamps)).1.items.lookup k = some item) :
    (runStamped ops (NewCache ttl, stamps)).2 k < item.ExpireAt := by
  refine runStamped_stamp_lt ops (NewCache ttl, stamps) httl hops ?_ k item hk
  intro k' item' hk'
  rw [show (NewCache ttl : Cache T).items.lookup k' = none from Finmap.lookup_empty k'] at hk'
  cases hk'

/-- C14: the lock that `Get` takes. `Get` takes the lock in shared mode, not
in exclusive mode, although its body writes the map as the bodies of the
other methods do; so two calls of `Get` can be inside their bodies at the
same time, which two calls of `Delete`, or a `Get` and a `Delete`, cannot. -/
theorem Get_takes_shared_lock :
    Method.lockMode Method.Get = LockMode.shared ∧
    Method.lockMode Method.Get ≠ LockMode.exclusive ∧
    Method.writesItems Method.Get = true ∧
    Method.overlaps Method.Get Method.Get = true ∧
    Method.overlaps Method.Delete Method.Delete = false ∧
    Method.overlaps Method.Get Method.Delete = false ∧
    (∀ m : Method, m ≠ Method.Get → Method.lockMode m = LockMode.exclusive) := by
  refine ⟨rfl, by decide, rfl, rfl, rfl, rfl, ?_⟩
  intro m hm
  cases m <;> first | rfl | exact absurd rfl hm

/-! ## Where the claims fail -/

/-- Against C12 as stated. Default TTL 5; the entry `a` is written at 100
with a lifetime of 1000, so it expires at 1100. A `Get` at 200 finds it and
moves its expiration to 205, which is earlier than 1100. -/
theorem Get_renewal_moves_expiry_earlier :
    (SetWithLifeDuration (NewCache 5 : Cache Int) "a" 7 1000 100).items.lookup "a"
      = some ⟨7, 1100⟩ ∧
    (200 : Time) ≤ 1100 ∧
    (Get (SetWithLifeDuration (NewCache 5 : Cache Int) "a" 7 1000 100) "a" 200 200).1
      = (7, true) ∧
    (Get (SetWithLifeDuration (NewCache 5 : Cache Int) "a" 7 1000 100) "a" 200 200).2.items.lookup
      "a" = some ⟨7, 205⟩ ∧
    ¬ ((1100 : Time) ≤ 205) := by
  decide

/-- Against C13 as stated. Default TTL -5; after `Set` of `a` at 100 the entry
is in the map, it was last written at 100 and it expires at 95, which is not
later than 100. With `SetWithLifeDuration` and a lifetime of 0 on a cache
whose default TTL is 5, the entry expires at 100 itself. -/
theorem expireAt_not_after_last_write :
    ((runStamped [Op.set "a" 1 100] ((NewCache (-5) : Cache Int), fun _ => 0)).1.items.lookup "a"
      = some ⟨1, 95⟩ ∧
    (runStamped [Op.set "a" 1 100] ((NewCache (-5) : Cache Int), fun _ => 0)).2 "a" = 100 ∧
    ¬ ((100 : Time) < 95)) ∧
    ((runStamped [Op.setWithLifeDuration "a" 1 0 100]
      ((NewCache 5 : Cache Int), fun _ => 0)).1.items.lookup "a" = some ⟨1, 100⟩ ∧
    (runStamped [Op.setWithLifeDuration "a" 1 0 100]
      ((NewCache 5 : Cache Int), fun _ => 0)).2 "a" = 100 ∧
    ¬ ((100 : Time) < 100)) := by
  decide

/-! ## The theorems at concrete inputs, continued -/

/-- Lifetime 10ms at 0, overwritten at 5ms with lifetime 10s, read at 25ms. -/
theorem SetWithLifeDuration_overwrite_resets_witness :
    (0 : Time) + 10 * Millisecond < 25 * Millisecond ∧
      (Get (SetWithLifeDuration (SetWithLifeDuration (NewCache Second : Cache Int) "a" 1
        (10 * Millisecond) 0) "a" 2 (10 * Second) (5 * Millisecond)) "a" (25 * Millisecond)
        (25 * Millisecond)).1 = (2, true) :=
  ⟨by decide, SetWithLifeDuration_overwrite_resets (NewCache Second) "a" 1 2
    (10 * Millisecond) (10 * Second) 0 (5 * Millisecond) (25 * Millisecond) (25 * Millisecond)
    (by decide)⟩

/-- Default TTL 5, an entry written by `Set` at 100 and read at 103: its
expiration moves from 105 to 108. -/
theorem Get_renewal_expiry_witness :
    ∃ item : CacheItem Int,
      (Get (Set (NewCache 5 : Cache Int) "a" 7 100) "a" 103 103).2.items.lookup "a" = some item ∧
        item.ExpireAt = 103 + 5 ∧ (105 : Time) ≤ item.ExpireAt :=
  let ⟨item, h1, _, h3, h4, _, _⟩ :=
    Get_renewal_expiry (Set (NewCache 5 : Cache Int) "a" 7 100) "a" 7 105 103 103
      (by decide) (by decide)
  ⟨item, h1, h3, h4 (by decide)⟩

/-- Default TTL 5, `Set` of `a` at 100 and a `Get` of `a` with readings 103
and 104: the entry was last renewed at 104 and expires at 109. -/
theorem expireAt_after_last_write_witness :
    (runStamped [Op.set "a" 1 100, Op.get "a" 103 104]
      ((NewCache 5 : Cache Int), fun _ => 0)).2 "a" = 104 ∧
    (runStamped [Op.set "a" 1 100, Op.get "a" 103 104]
      ((NewCache 5 : Cache Int), fun _ => 0)).2 "a" < (109 : Time) :=
  ⟨by decide, expireAt_after_last_write 5 (by decide) [Op.set "a" 1 100, Op.get "a" 103 104]
    (by decide) (fun _ => 0) "a" ⟨1, 109⟩ (by decide)⟩

/-- A cache that holds `b`: a `Get` of `a` leaves `b` and the default TTL. -/
theorem frame_other_key_and_ttl_witness :
    (Get (Set (NewCache 5 : Cache Int) "b" 9 50) "a" 60 60).2.items.lookup "b"
        = some ⟨9, 55⟩ ∧
      (Get (Set (NewCache 5 : Cache Int) "b" 9 50) "a" 60 60).2.ttl = 5 :=
  ⟨(frame_other_key_and_ttl (Set (NewCache 5 : Cache Int) "b" 9 50) "a" "b" 0 0 0 60 60
      (fun _ => 0) (by decide)).1.2.2.1,
    (frame_other_key_and_ttl (Set (NewCache 5 : Cache Int) "b" 9 50) "a" "b" 0 0 0 60 60
      (fun _ => 0) (by decide)).2.2.2.1⟩

/-- An entry that expires at 105, a sweep at 110 and a `Get` at 120. -/
theorem Invalidate_invisible_to_Get_witness :
    (Get (Invalidate (Set (NewCache 5 : Cache Int) "a" 7 100) (fun _ => 110)) "a" 120 120).1
        = (Get (Set (NewCache 5 : Cache Int) "a" 7 100) "a" 120 120).1 ∧
      (Get (Invalidate (Set (NewCache 5 : Cache Int) "a" 7 100)
          (fun _ => 110)) "a" 120 120).2.items.lookup "a"
        = (Get (Set (NewCache 5 : Cache Int) "a" 7 100) "a" 120 120).2.items.lookup "a" :=
  Invalidate_invisible_to_Get (Set (NewCache 5 : Cache Int) "a" 7 100) "a" (fun _ => 110)
    120 120 (by decide)

/-- An entry that expires at 105: a miss at 110, then a sweep and a write of
another key, then a `Get` at the earlier reading 101. -/
theorem Get_miss_stays_absent_witness :
    (Get (Set (NewCache 5 : Cache Int) "a" 7 100) "a" 110 110).1.1 = 0 ∧
    (Get (Set (NewCache 5 : Cache Int) "a" 7 100) "a" 110 110).2.items.lookup "a" = none ∧
    (Get (run [Op.invalidate (fun _ => 111), Op.set "b" 3 112]
      (Get (Set (NewCache 5 : Cache Int) "a" 7 100) "a" 110 110).2) "a" 101 101).1
        = (0, false) :=
  ⟨(Get_miss_stays_absent (Set (NewCache 5 : Cache Int) "a" 7 100) "a" 110 110
      (by decide)).1,
    (Get_miss_stays_absent (Set (NewCache 5 : Cache Int) "a" 7 100) "a" 110 110
      (by decide)).2.1,
    (Get_miss_stays_absent (Set (NewCache 5 : Cache Int) "a" 7 100) "a" 110 110
      (by decide)).2.2 [Op.invalidate (fun _ => 111), Op.set "b" 3 112] (by decide) 101 101⟩

/-- Default TTL -5: written at 100 and read at 100, a miss. Default TTL 0:
written at 100 and read at 100, a hit. -/
theorem Set_Get_nonpositive_ttl_witness :
    ((Get (Set (NewCache (-5) : Cache Int) "a" 7 100) "a" 100 100).1 = (0, false) ∧
      (Get (Set (NewCache (-5) : Cache Int) "a" 7 100) "a" 100 100).2.items.lookup "a" = none) ∧
    (Get (Set (NewCache 0 : Cache Int) "a" 7 100) "a" 100 100).1.2 = true :=
  ⟨((Set_Get_nonpositive_ttl (NewCache (-5) : Cache Int) "a" 7 100 100 100 (by decide)).1
      (by decide)).2,
    ((Set_Get_nonpositive_ttl (NewCache 0 : Cache Int) "a" 7 100 100 100 (by decide)).2
      rfl).mpr rfl⟩

end contract

end GoCache
